import Mathlib

/-!
Verification development for the ttcardgen card generator
(`ttcardgen.py`).  The Python program is shallowly embedded: pure
functions become Lean functions, the mutating configuration store
becomes explicit state passing, and every fallible operation returns
`Except PyErr`.  External collaborators (the wand imaging library, the
filesystem) are parameters: image loading is a map from path to
dimensions, font measurement is a function from font size and text to
a measured width/height pair.

Scope notes on the embedding of Python library routines:
* strings are modelled at the level of their character lists; the
  Python whitespace set is modelled by its ASCII members;
* `os.path.realpath` is embedded as the identity (configs in the
  theorems use already-canonical absolute paths, no symlinks);
* `configparser` DEFAULT-section fallback is not modelled (no claim
  exercises it); sections are association lists in file order;
* `textwrap.wrap` is modelled for text without tabs or hyphens: the
  hyphen clause of its chunk splitter is not reproduced, which is why
  the general wrapping theorem carries a no-hyphen hypothesis.
-/

set_option maxRecDepth 100000

/-- Error values that can escape the embedded Python code: the three
`CardError` classes of ttcardgen plus the builtin exceptions that the
code can raise uncaught. -/
inductive PyErr : Type where
  | cardError (msg : String)
  | configError (msg : String)
  | fileError (msg : String)
  | valueError (msg : String)
  | keyError (msg : String)
  deriving DecidableEq, Repr

deriving instance DecidableEq for Except

/-- The `Area` dataclass: placement rectangle, integer pixel coordinates
(Python ints, hence `ℤ`). -/
structure Area : Type where
  x : Int
  y : Int
  width : Int
  height : Int
  deriving DecidableEq, Repr

/-- Python `str.startswith`, on the character lists (kernel-reducible
replacement for `String.startsWith`). -/
def strStarts (s pre : String) : Bool := pre.data.isPrefixOf s.data

/-- Python `str.endswith`, on the character lists. -/
def strEnds (s suf : String) : Bool := suf.data.reverse.isPrefixOf s.data.reverse

/-- ASCII members of the Python whitespace set used by `str.split()`,
`str.strip()` and `textwrap`. -/
def isPyWs (c : Char) : Bool :=
  c = ' ' || c = '\t' || c = '\n' || c = '\x0b' || c = '\x0c' || c = '\r'

/-- Maximal runs of characters, grouped by the boolean classifier `p`:
adjacent characters with the same classification share a run.  Used for
`str.split()` (classifier `isPyWs`) and for the `textwrap` chunk
splitter (classifier: is a space).  The hyphen clause of
`textwrap.wordsep_re` is not modelled (see the file header). -/
def splitRunsBy (p : Char → Bool) : List Char → List (List Char)
  | [] => []
  | c :: cs =>
    match splitRunsBy p cs with
    | (d :: ds) :: rs =>
      if p c = p d then (c :: d :: ds) :: rs else [c] :: (d :: ds) :: rs
    | rs => [c] :: rs

/-- Python `str.split()` with no arguments: split on whitespace runs and
drop the separators (empty tokens never occur). -/
def pySplit (s : String) : List String :=
  ((splitRunsBy isPyWs s.data).filter fun r =>
    match r with
    | [] => false
    | c :: _ => !isPyWs c).map String.mk

/-- Python `str.strip()` with no arguments (ASCII whitespace). -/
def pyStrip (s : String) : String :=
  String.mk (((s.data.dropWhile isPyWs).reverse.dropWhile isPyWs).reverse)

/-- Python `str.capitalize()`: first character uppercased, the rest
lowercased. -/
def pyCapitalize (s : String) : String :=
  match s.data with
  | [] => ""
  | c :: cs => String.mk (c.toUpper :: cs.map Char.toLower)

/-- Digit run of a Python integer literal, allowing single underscores
between digits, accumulating into `acc` (first character already
checked to be a digit by `pyInt`). -/
def pyDigitsGo : Nat → List Char → Option Nat
  | acc, [] => some acc
  | acc, c :: cs =>
    if c.isDigit then pyDigitsGo (10 * acc + (c.toNat - 48)) cs
    else if c = '_' then
      match cs with
      | [] => none
      | d :: _ => if d.isDigit then pyDigitsGo acc cs else none
    else none

/-- Unsigned decimal digit run: nonempty, starts with a digit. -/
def pyDigits : List Char → Option Nat
  | [] => none
  | c :: cs => if c.isDigit then pyDigitsGo (c.toNat - 48) cs else none

/-- Python `int(str)` for ASCII decimal strings: optional surrounding
whitespace, optional sign, decimal digits with underscore grouping.
`none` models `ValueError`. -/
def pyInt (s : String) : Option Int :=
  match (s.data.dropWhile isPyWs).reverse.dropWhile isPyWs |>.reverse with
  | '+' :: rest => (pyDigits rest).map fun n => (n : Int)
  | '-' :: rest => (pyDigits rest).map fun n => -(n : Int)
  | rest => (pyDigits rest).map fun n => (n : Int)

/-- Python `float(str)` for plain decimal forms `[+-]digits[.digits]` or
`[+-].digits` (exponents, `inf`, `nan` are outside the modelled
fragment). -/
def pyFloatMag (l : List Char) : Option ℚ :=
  let intPart := l.takeWhile Char.isDigit
  let rest := l.dropWhile Char.isDigit
  match rest with
  | [] => if intPart.isEmpty then none else (pyDigits intPart).map fun n => (n : ℚ)
  | '.' :: fracs =>
    if fracs.all Char.isDigit ∧ ¬(intPart.isEmpty ∧ fracs.isEmpty) then
      let ip : ℚ := ((pyDigitsGo 0 intPart).getD 0 : ℚ)
      let fp : ℚ := ((pyDigitsGo 0 fracs).getD 0 : ℚ) / ((10 : ℚ) ^ fracs.length)
      some (ip + fp)
    else none
  | _ => none

/-- Python `float(str)`, see `pyFloatMag`. -/
def pyFloat (s : String) : Option ℚ :=
  match (s.data.dropWhile isPyWs).reverse.dropWhile isPyWs |>.reverse with
  | '+' :: rest => pyFloatMag rest
  | '-' :: rest => (pyFloatMag rest).map Neg.neg
  | rest => pyFloatMag rest

/-- Python `str.expandtabs(tabsize)` with column tracking: a tab advances to
the next tab stop, newlines and carriage returns reset the column. -/
def expandtabsGo (tabsize : Nat) : Nat → List Char → List Char
  | _, [] => []
  | col, c :: cs =>
    if c = '\t' then
      if tabsize = 0 then expandtabsGo tabsize col cs
      else
        let incr := tabsize - col % tabsize
        List.replicate incr ' ' ++ expandtabsGo tabsize (col + incr) cs
    else if c = '\n' ∨ c = '\r' then c :: expandtabsGo tabsize 0 cs
    else c :: expandtabsGo tabsize (col + 1) cs

/-- Model of `TextWrapper._munge_whitespace` with the default options: expand
tabs (tab size 8), then turn every ASCII whitespace character into a
plain space. -/
def munge (l : List Char) : List Char :=
  (expandtabsGo 8 0 l).map fun c =>
    if c = '\t' ∨ c = '\n' ∨ c = '\x0b' ∨ c = '\x0c' ∨ c = '\r' then ' ' else c

/-- Greedy chunk packing, the inner `while` of
`TextWrapper._wrap_chunks`: keep taking chunks while the accumulated
length stays within `width`; returns the taken chunks and the rest. -/
def greedyTake (width : Nat) : Nat → List (List Char) → List (List Char) × List (List Char)
  | _, [] => ([], [])
  | curLen, c :: cs =>
    if curLen + c.length ≤ width then
      let r := greedyTake width (curLen + c.length) cs
      (c :: r.1, r.2)
    else ([], c :: cs)

/-- Python `str.rfind` of a hyphen restricted to a prefix, as used by
`TextWrapper._handle_long_word`. -/
def lastHyphenIdx (l : List Char) : Option Nat :=
  ((l.enum.filter fun p => p.2 == '-').map Prod.fst).getLast?

/-- Cut position chosen by `TextWrapper._handle_long_word` with
`break_long_words` and `break_on_hyphens` (the defaults): break at
`spaceLeft`, or just after the last hyphen inside it when the hyphen
rule applies. -/
def hlwEnd (chunk : List Char) (spaceLeft : Nat) : Nat :=
  if spaceLeft < chunk.length then
    match lastHyphenIdx (chunk.take spaceLeft) with
    | some i =>
      if 0 < i ∧ (chunk.take i).any (fun c => c != '-') then i + 1 else spaceLeft
    | none => spaceLeft
  else spaceLeft

/-- The `drop_whitespace` deletion of a trailing all-whitespace chunk
from the current line. -/
def dropTrailingWs (l : List (List Char)) : List (List Char) :=
  match l.getLast? with
  | some r => if r.all (fun c => c == ' ') then l.dropLast else l
  | none => l

/-- Termination measure of the `_wrap_chunks` loop: total chunk length
plus chunk count (every iteration strictly decreases it). -/
def wrapMeasure (chunks : List (List Char)) : Nat :=
  (chunks.map List.length).sum + chunks.length

/-- One iteration of the outer loop of `TextWrapper._wrap_chunks`
(after the leading-whitespace drop), with the rest of the loop as the
continuation `recur`: pack greedily, split the next chunk if it alone
exceeds the width (`_handle_long_word`), drop a trailing whitespace
chunk, emit the line if nonempty, continue on the remaining chunks. -/
def wrapStep (width : Nat) (recur : Bool → List (List Char) → List (List Char))
    (emitted : Bool) (chunks1 : List (List Char)) : List (List Char) :=
  let tk := greedyTake width 0 chunks1
  match tk.2 with
  | [] =>
    let cur3 := dropTrailingWs tk.1
    if cur3.isEmpty then [] else [cur3.flatten]
  | rh :: rt =>
    if width < rh.length then
      let curLen := (tk.1.map List.length).sum
      let spaceLeft := if width < 1 then 1 else width - curLen
      let e := hlwEnd rh spaceLeft
      let cur3 := dropTrailingWs (tk.1 ++ [rh.take e])
      let rest2 := rh.drop e :: rt
      if cur3.isEmpty then recur emitted rest2
      else cur3.flatten :: recur true rest2
    else
      let cur3 := dropTrailingWs tk.1
      if cur3.isEmpty then recur emitted (rh :: rt)
      else cur3.flatten :: recur true (rh :: rt)

/-- The outer loop of `TextWrapper._wrap_chunks` with the default
options, as structural recursion on an explicit fuel (`wrap` supplies
`wrapMeasure chunks + 1`, which never runs out, every iteration
strictly decreasing the measure): drop a leading whitespace chunk once
a line has been emitted, then run `wrapStep`. -/
def wrapChunksGo (width : Nat) : Nat → Bool → List (List Char) → List (List Char)
  | 0 => fun _ _ => []
  | fuel + 1 => fun emitted chunks =>
    match chunks with
    | [] => []
    | c0 :: rest0 =>
      wrapStep width (wrapChunksGo width fuel) emitted
        (if emitted && c0.all (fun c => c == ' ') then rest0 else c0 :: rest0)

/-- Model of `textwrap.wrap(text, width)` with the default options, for text
without tabs or hyphens (see the file header): munge whitespace, split
into alternating word/space chunks, fail with `ValueError` when the
width is not positive, otherwise run the wrapping loop. -/
def wrap (text : String) (width : Nat) : Except PyErr (List String) :=
  let chunks := splitRunsBy (fun c => c == ' ') (munge text.data)
  if width = 0 then .error (.valueError "invalid width 0 (must be > 0)")
  else .ok ((wrapChunksGo width (wrapMeasure chunks + 1) false chunks).map String.mk)

/-- Split a character list at every newline (`str.split` on a single
newline). -/
def splitNl : List Char → List (List Char)
  | [] => [[]]
  | c :: cs =>
    if c = '\n' then [] :: splitNl cs
    else
      match splitNl cs with
      | r :: rs => (c :: r) :: rs
      | [] => [[c]]

/-- Python `str.splitlines()` for text whose line breaks are plain
newlines: like splitting on the newline, except that a trailing
newline produces no empty final line and the empty string has no
lines. -/
def pySplitlines (s : String) : List String :=
  match s.data with
  | [] => []
  | c :: cs =>
    let parts := splitNl (c :: cs)
    ((if (c :: cs).getLast? = some '\n' then parts.dropLast else parts).map String.mk)

/-- Python `'\n'.join`. -/
def joinNl : List String → String
  | [] => ""
  | [s] => s
  | s :: rest => s ++ "\n" ++ joinNl rest

/-- Font metrics of the external drawing context: `eval_metrics` as a
function of the current font size and the text, returning
`(text_width, text_height)`.  Font sizes are carried in quarter
points (an integer), so that the `0.75` decrement of `word_wrap` is
the exact integer `3`: a model font size `q` stands for the Python
float `ctx.font_size = q / 4`, and `q > 0 ↔ ctx.font_size > 0`. -/
abbrev Metrics := Int → String → ℚ × ℚ

namespace Utils

/-- The expression `'\n'.join(map(lambda x: '\n'.join(wrap(x, columns)), lines))`:
re-wrap every original line at the column width; a `ValueError` from
`wrap` propagates. -/
def wrapAll (lines : List String) (columns : Nat) : Except PyErr String := do
  let wrapped ← lines.mapM fun x => do
    let ws ← wrap x columns
    pure (joinNl ws)
  pure (joinNl wrapped)

/-- The inner column loop of `Utils.word_wrap`: decrement `columns`,
re-wrap, stop at the first width whose measured text width fits.
Returns the final `(columns, mutable_message)` pair of the loop. -/
def columnsLoop (metrics : Metrics) (imgWidth : Int) (fontSize4 : Int) (lines : List String) :
    Nat → String → Except PyErr (Nat × String)
  | 0, mm => .ok (0, mm)
  | columns + 1, _ =>
    match wrapAll lines columns with
    | .error e => .error e
    | .ok mm1 =>
      if (metrics fontSize4 mm1).1 ≤ (imgWidth : ℚ) then .ok (columns, mm1)
      else columnsLoop metrics imgWidth fontSize4 lines columns mm1

/-- The outer `while` of `Utils.word_wrap`, structural on the
remaining `iteration_attempts`; returns the loop-exit state
`(mutable_message, font_size, iteration_attempts)`. -/
def wordWrapGo (metrics : Metrics) (imgWidth imgHeight : Int) (text : String)
    (lines : List String) (maxcolumns : Nat) :
    Nat → Int → String → Except PyErr (String × Int × Nat)
  | 0, fontSize4, mm => .ok (mm, fontSize4, 0)
  | attempts + 1, fontSize4, mm =>
    if 0 < fontSize4 then
      let m := metrics fontSize4 mm
      if (imgHeight : ℚ) < m.2 then
        wordWrapGo metrics imgWidth imgHeight text lines maxcolumns attempts
          (fontSize4 - 3) text
      else if (imgWidth : ℚ) < m.1 then
        match columnsLoop metrics imgWidth fontSize4 lines maxcolumns mm with
        | .error e => .error e
        | .ok (columns, mm1) =>
          if columns < 1 then
            wordWrapGo metrics imgWidth imgHeight text lines maxcolumns attempts
              (fontSize4 - 3) text
          else
            wordWrapGo metrics imgWidth imgHeight text lines maxcolumns attempts fontSize4 mm1
      else .ok (mm, fontSize4, attempts)
    else .ok (mm, fontSize4, attempts + 1)

/-- Model of `Utils.word_wrap(image, ctx, text)`: the box is the image's
`width × height`, the starting font size is the context's, and the
measuring function stands for `ctx.get_font_metrics`.  Returns the
wrapped text together with the context's final font size (the side
effect on `ctx.font_size`). -/
def word_wrap (metrics : Metrics) (imgWidth imgHeight : Int) (fontSize4 : Int)
    (text : String) : Except PyErr (String × Int) :=
  let lines := pySplitlines text
  match lines.map String.length with
  | [] => .error (.valueError "max() arg is an empty sequence")
  | n :: ns =>
    let maxcolumns := (n :: ns).foldl max 0
    match wordWrapGo metrics imgWidth imgHeight text lines maxcolumns 100 fontSize4 text with
    | .error e => .error e
    | .ok (mm, fs, attempts) =>
      if attempts < 1 then
        .error (.cardError ("unable to calculate word_wrap for " ++ text))
      else .ok (mm, fs)

end Utils

/-- One config section: key/value pairs in file order (Python dict
insertion order). -/
abbrev Sect := List (String × String)

/-- A parsed config: sections in file order.  `DEFAULT` handling of
`configparser` is outside the modelled fragment. -/
abbrev Cfg := List (String × Sect)

/-- First-match association lookup (Python dict access; the parser
never produces duplicate keys). -/
def alookup {β : Type} : List (String × β) → String → Option β
  | [], _ => none
  | (k, v) :: rest, key => if k = key then some v else alookup rest key

/-- Python dict assignment `d[k] = v`: overwrite in place, append when
new. -/
def setKV : Sect → String → String → Sect
  | [], k, v => [(k, v)]
  | (k1, v1) :: rest, k, v =>
    if k1 = k then (k, v) :: rest else (k1, v1) :: setKV rest k v

/-- Replace a whole section (Python proxy mutation of one section). -/
def setSec : Cfg → String → Sect → Cfg
  | [], s, sec => [(s, sec)]
  | (s1, sec1) :: rest, s, sec =>
    if s1 = s then (s, sec) :: rest else (s1, sec1) :: setSec rest s sec

/-- Model of `ConfigParser.read_dict`, one section: `set` each incoming key in
order on top of the existing section body. -/
def mergeSection (base : Sect) (kvs : Sect) : Sect :=
  kvs.foldl (fun s p => setKV s p.1 p.2) base

/-- Model of `ConfigParser.read_dict`, one `(section, keys)` item:
`add_section` if missing, then set every key. -/
def upsertSec : Cfg → String → Sect → Cfg
  | [], s, kvs => [(s, mergeSection [] kvs)]
  | (s1, sec1) :: rest, s, kvs =>
    if s1 = s then (s1, mergeSection sec1 kvs) :: rest
    else (s1, sec1) :: upsertSec rest s kvs

/-- The call `self.cfg.read_dict(config)`: overlay every section of `config`
onto the accumulated store; keys present in both are overwritten by
`config`, everything else is kept. -/
def read_dict (store : Cfg) (config : Cfg) : Cfg :=
  config.foldl (fun st p => upsertSec st p.1 p.2) store

/-- Model of `cfg.has_section`. -/
def hasSection (c : Cfg) (s : String) : Bool :=
  (alookup c s).isSome

/-- Value of key `k` in section `s`, when both exist. -/
def getKey (c : Cfg) (s : String) (k : String) : Option String :=
  (alookup c s).bind fun sec => alookup sec k

/-- Model of `os.path.join` for two POSIX path components. -/
def pyJoin (a b : String) : String :=
  if strStarts b "/" then b
  else if a = "" ∨ strEnds a "/" then a ++ b
  else a ++ "/" ++ b

/-- Model of `os.path.dirname` for POSIX paths: everything before the final
slash, with trailing slashes stripped unless the result is all
slashes. -/
def pyDirname (p : String) : String :=
  let data := p.data
  let i := data.length - (data.reverse.takeWhile (fun c => c ≠ '/')).length
  let head := data.take i
  if head.isEmpty || head.all (fun c => c = '/') then String.mk head
  else String.mk ((head.reverse.dropWhile (fun c => c = '/')).reverse)

/-- Model of `os.path.realpath`, embedded as the identity: the configs in this
development use canonical absolute paths and no symbolic links. -/
def realpath (p : String) : String := p

/-- The filesystem as seen by `CardConfig.load`: maps a (canonical)
path to the parsed content of the config file stored there, `none`
when `os.path.isfile` is false. -/
abbrev FS := String → Option Cfg

namespace CardConfig

/-- First loop of `CardConfig.expand_paths`: join `template`,
`background`, `backside` and every `image*` key of the `Card` section
(keys enumerated before the loop) with the config file's directory,
skipping empty values. -/
def expandCard (card : Sect) (relpath : String) : Sect :=
  let filekeys := ["template", "background", "backside"] ++
    (card.map Prod.fst).filter (fun k => strStarts k "image")
  filekeys.foldl
    (fun sec key =>
      match alookup sec key with
      | none => sec
      | some v => if v = "" then sec else setKV sec key (pyJoin relpath v))
    card

/-- Second loop of `CardConfig.expand_paths`: for every section named
`Title*` or `Text*` with a non-empty `font` value, write the joined
path — to the key `"fong"`, exactly as the source does (ttcardgen.py
line 208). -/
def expandFonts (config : Cfg) (relpath : String) : Cfg :=
  config.map fun p =>
    if strStarts p.1 "Title" || strStarts p.1 "Text" then
      match alookup p.2 "font" with
      | none => p
      | some v => if v = "" then p else (p.1, setKV p.2 "fong" (pyJoin relpath v))
    else p

/-- Model of `CardConfig.expand_paths`. -/
def expand_paths (config : Cfg) (relpath : String) : Except PyErr Cfg :=
  match alookup config "Card" with
  | none => .error (.configError "missing config section: 'Card'")
  | some card => .ok (expandFonts (setSec config "Card" (expandCard card relpath)) relpath)

/-- Model of `CardConfig.load`, with the recursion counter re-expressed as the
remaining budget `101 - level` so that the recursion is structural:
the source guard `level > 100` is exactly `rem = 0`.  The mutation of
`self.cfg` becomes state passing: the call maps the store to the new
store paired with the raised error, if any. -/
def loadRem (fs : FS) : Nat → Cfg → String → Cfg × Option PyErr
  | 0, store, _ => (store, some (.configError "too many templates"))
  | rem + 1, store, filename =>
    let cfgpath := realpath filename
    match fs cfgpath with
    | none => (store, some (.fileError ("file not found: " ++ filename)))
    | some config =>
      if hasSection config "Card" then
        match expand_paths config (pyDirname cfgpath) with
        | .error e => (store, some e)
        | .ok config1 =>
          match getKey config1 "Card" "template" with
          | some templatepath =>
            match loadRem fs rem store templatepath with
            | (store1, none) => (read_dict store1 config1, none)
            | (store1, some e) => (store1, some e)
          | none => (read_dict store config1, none)
      else
        (store, some (.configError ("missing config section 'Card' from " ++ filename)))

/-- Model of `CardConfig.load(filename, level)`. -/
def load (fs : FS) (store : Cfg) (filename : String) (level : Nat) : Cfg × Option PyErr :=
  loadRem fs (101 - level) store filename

/-- Model of `CardConfig.str2area`: split the value on whitespace, convert every
token with `int` (a `ValueError` anywhere aborts), then index the first
four entries (an `IndexError` aborts); both failures are converted to
`CardConfigError("error parsing area: ...")`. -/
def str2area (txt : String) : Except PyErr Area :=
  match (pySplit txt).mapM pyInt with
  | none => .error (.configError ("error parsing area: " ++ txt))
  | some a =>
    match a[0]?, a[1]?, a[2]?, a[3]? with
    | some x, some y, some w, some h => .ok ⟨x, y, w, h⟩
    | _, _, _, _ => .error (.configError ("error parsing area: " ++ txt))

end CardConfig

/-- The store of a fresh `CardConfig`: the sections of the built-in
`DEFAULTCFG` string, whose bodies are all comments (no keys). -/
def initCfg : Cfg := [("Card", []), ("Image", []), ("Title", []), ("Text", [])]

/-- The wand image loader as an external collaborator: maps a path to
the dimensions of the image stored there, `none` when creation fails
(the `CardError` message then carries the path in place of the
external error text). -/
abbrev ImgEnv := String → Option (Nat × Nat)

/-- Python `int()` truncation of a rational toward zero (the `"%i"`
format conversion applied to a float). -/
def pyTrunc (q : ℚ) : Int := q.num.tdiv (q.den : Int)

/-- Python `' '.join`. -/
def joinSp : List String → String
  | [] => ""
  | [s] => s
  | s :: rest => s ++ " " ++ joinSp rest

namespace Card

/-- The `Card.border` value read by `cfg.getint("border", fallback=20)`:
`none` models the `ValueError` of a malformed value. -/
def borderVal (card : Sect) : Option Int :=
  match alookup card "border" with
  | none => some 20
  | some v => pyInt v

/-- Model of `Card.__init__` up to the canvas creation, returning the canvas
`(width, height)`.  The border colour check is the external wand
`Color` parser, abstracted as the predicate `colorOk`.  Compositing,
cut marks and the 180° backside pre-rotation do not change the canvas
size and are not part of the returned value. -/
def init (env : ImgEnv) (colorOk : String → Bool) (store : Cfg) : Except PyErr (Int × Int) :=
  match alookup store "Card" with
  | none => .error (.configError "missing config section 'Card'")
  | some cfg =>
    match alookup cfg "background" with
    | none => .error (.configError "background image not configured")
    | some p =>
      if p = "" then .error (.configError "background image not configured")
      else
        match env p with
        | none => .error (.cardError ("failed to create image: " ++ p))
        | some bg =>
          let backRes : Except PyErr (Option (Nat × Nat)) :=
            match alookup cfg "backside" with
            | none => .ok none
            | some q =>
              if q = "" then .ok none
              else
                match env q with
                | none => .error (.cardError ("failed to create image: " ++ q))
                | some d => .ok (some d)
          match backRes with
          | .error e => .error e
          | .ok backOpt =>
            if colorOk ((alookup cfg "border_colour").getD "black") then
              match borderVal cfg with
              | none => .error (.configError "'border' must be a number")
              | some border =>
                let canvasheight := (bg.2 : Int) + 2 * border
                let canvasheight := if backOpt.isSome then 2 * canvasheight else canvasheight
                .ok ((bg.1 : Int) + 2 * border, canvasheight)
            else .error (.configError "invalid 'border_colour'")

/-- Everything `Card.text` computes before drawing on the canvas; the
drawing itself (composite of the rendered block at
`border + area.x, border + area.y`, shifted when rotated) consumes
exactly these values. -/
structure TextRender where
  area : Area
  font : Option String
  fontColour : String
  fontBorderColour : String
  gravity : String
  rotate : Option ℚ
  wrapped : String
  fontSize4 : Int
  deriving DecidableEq, Repr

/-- Model of `Card.text(key)`: read the field value from the `Card` section,
strip it, and return `none` (no canvas effect) when nothing remains;
otherwise look up the capitalized settings section, validate `area`,
`font_size`, the colours and `rotate`, and run `word_wrap` in the
`area`-sized box. -/
def text (metrics : Metrics) (colorOk : String → Bool) (store : Cfg) (key : String) :
    Except PyErr (Option TextRender) :=
  match alookup store "Card" with
  | none => .error (.configError "missing config section 'Card'")
  | some card =>
    match alookup card key with
    | none => .error (.keyError key)
    | some raw =>
      if pyStrip raw = "" then .ok none
      else
        match alookup store (pyCapitalize key) with
        | none => .error (.configError ("missing config section '" ++ pyCapitalize key ++ "'"))
        | some ts =>
          match alookup ts "area" with
          | none => .error (.configError "'area' undefined")
          | some av =>
            match CardConfig.str2area av with
            | .error e => .error e
            | .ok area =>
              match (match alookup ts "font_size" with
                     | none => some (4 * (20 : Int))
                     | some v => (pyInt v).map fun n => 4 * n) with
              | none => .error (.configError "'font_size' must be a number")
              | some fs0 =>
                if colorOk ((alookup ts "font_colour").getD "black") &&
                    colorOk ((alookup ts "font_border_colour").getD "black") then
                  match (match alookup ts "rotate" with
                         | none => some none
                         | some v => (pyFloat v).map some) with
                  | none => .error (.configError "'rotate' must be a real number")
                  | some rot =>
                    match Utils.word_wrap metrics area.width area.height fs0 (pyStrip raw) with
                    | .error e => .error e
                    | .ok (wrapped, fs1) =>
                      .ok (some
                        ⟨area, alookup ts "font",
                         (alookup ts "font_colour").getD "black",
                         (alookup ts "font_border_colour").getD "black",
                         (alookup ts "gravity").getD "center", rot, wrapped, fs1⟩)
                else .error (.configError "invalid 'font_colour'")

/-- Everything `Card.pango` computes before rendering: the markup
string handed to the external renderer plus the placement data. -/
structure PangoRender where
  area : Area
  markup : String
  gravity : String
  pangoGravity : String
  rotate : Option ℚ
  deriving DecidableEq, Repr

/-- Model of `Card.pango(text, cfg_section)`: strip the text and return `none`
(no canvas effect) when nothing remains; otherwise validate `area`,
`font_size` and `rotate`, invert the horizontal gravity for the
renderer, and assemble the `pango:<span …>` markup (`font_size` is
scaled by 1000 and truncated to an integer by the `"%i"` format). -/
def pango (sec : Sect) (textRaw : String) : Except PyErr (Option PangoRender) :=
  let t := pyStrip textRaw
  if t = "" then .ok none
  else
    match alookup sec "area" with
    | none => .error (.configError "'area' undefined")
    | some av =>
      match CardConfig.str2area av with
      | .error e => .error e
      | .ok area =>
        let fontOpt := ((alookup sec "font").map fun f => "font=\"" ++ f ++ "\"")
        match (match alookup sec "font_size" with
               | none => some (20 : ℚ)
               | some v => pyFloat v) with
        | none => .error (.configError "'font_size' must be a real number")
        | some fs =>
          let spanOpts := fontOpt.toList ++
            ["size=\"" ++ toString (pyTrunc (fs * 1000)) ++ "\"",
             "foreground=\"" ++ (alookup sec "font_colour").getD "black" ++ "\""]
          match (match alookup sec "rotate" with
                 | none => some none
                 | some v => (pyFloat v).map some) with
          | none => .error (.configError "'rotate' must be a real number")
          | some rot =>
            let gravity := (alookup sec "gravity").getD "center"
            let pangogravity :=
              if strEnds gravity "east" then "west"
              else if strEnds gravity "west" then "east"
              else "center"
            .ok (some
              ⟨area, "pango:<span " ++ joinSp spanOpts ++ ">" ++ t ++ "</span>",
               gravity, pangogravity, rot⟩)

end Card

/-- Template-chain filesystem for the recursion-guard boundary: file
`/a…at.cfg` with `k` letters `a` declares `template = a…at.cfg`
(`k+1` letters) while the last file of the chain declares none. -/
def chainName (k : Nat) : String := String.mk (List.replicate k 'a') ++ "t.cfg"

/-- Absolute path of the `k`-th chain file. -/
def chainPath (k : Nat) : String := "/" ++ chainName k

/-- Decode the body of a chain path back to its index. -/
def chainIdx : List Char → Option Nat
  | 't' :: '.' :: 'c' :: 'f' :: 'g' :: [] => some 0
  | 'a' :: r => (chainIdx r).map (· + 1)
  | _ => none

/-- Filesystem holding the chain files `0 … n`: each file up to `n-1`
references the next as its template. -/
def fsChain (n : Nat) : FS := fun p =>
  match p.data with
  | '/' :: rest =>
    match chainIdx rest with
    | some k =>
      if k < n then some [("Card", [("template", chainName (k + 1))])]
      else if k = n then some [("Card", [])]
      else none
    | none => none
  | _ => none


/-- Measuring function that always reports a huge text width: no
wrapping ever fits horizontally (used against the width-overflow
branch). -/
def mWide : Metrics := fun _ _ => (1000, 0)

/-- Measuring function that always reports an excessive text height:
every attempt shrinks the font and restores the original text. -/
def mShrink : Metrics := fun _ _ => (0, 10)

/-- Measuring function whose reported width is the length of the
longest line of the candidate (one pixel per character) and whose
height always fits. -/
def mMaxCol : Metrics :=
  fun _ s => ((((pySplitlines s).map String.length).foldl max 0 : Nat), 0)

/-- Measuring function for which everything fits immediately. -/
def mZero : Metrics := fun _ _ => (0, 0)

/-- Option fallback: the first value when present, else the second. -/
def oor {α : Type} : Option α → Option α → Option α
  | some a, _ => some a
  | none, b => b

/-- Substring occurrence test: `infixBool w l` holds when `w` occurs
contiguously inside `l` — the formalization of a word appearing
"intact (uncut)" on an output line. -/
def infixBool (w : List Char) : List Char → Bool
  | [] => w.isEmpty
  | c :: cs => w.isPrefixOf (c :: cs) || infixBool w cs

/-- Well-formedness guaranteed by `configparser` output: distinct
section names, distinct keys within each section. -/
def CfgWF (c : Cfg) : Prop :=
  (c.map Prod.fst).Nodup ∧ ∀ p ∈ c, (p.2.map Prod.fst).Nodup

instance (c : Cfg) : Decidable (CfgWF c) := by
  unfold CfgWF; infer_instance

/-- Leaf config of the template-overlay witness, the parsed content of
`/d/leaf.cfg`. -/
def leafRawC1 : Cfg :=
  [("Card", [("template", "base.cfg"), ("title1", "x")]),
   ("Text1", [("font_size", "20")])]

/-- Base template of the overlay witness, the parsed content of
`/d/base.cfg`. -/
def baseRawC1 : Cfg :=
  [("Card", []), ("Text1", [("font_size", "10")])]

/-- Witness filesystem holding the leaf and its template. -/
def fsC1 : FS := fun p =>
  if p = "/d/leaf.cfg" then some leafRawC1
  else if p = "/d/base.cfg" then some baseRawC1
  else none

/-- The leaf config after path expansion against `/d`. -/
def expC1 : Cfg :=
  [("Card", [("template", "/d/base.cfg"), ("title1", "x")]),
   ("Text1", [("font_size", "20")])]

/-- The store produced by loading the base template on top of a fresh
store. -/
def stBaseC1 : Cfg :=
  [("Card", []), ("Image", []), ("Title", []), ("Text", []),
   ("Text1", [("font_size", "10")])]

/-- Image environment of the canvas-size witness: one loadable
background of 100×60 pixels. -/
def envC8 : ImgEnv := fun p => if p = "bg.png" then some (100, 60) else none

/-- Minimal config of the canvas-size witness: only a background. -/
def cfgC8 : Cfg := [("Card", [("background", "bg.png")])]

/-! ## Theorems -/

/-- C5 (counterexample): a value with five integer tokens is not
rejected — `str2area` silently ignores every token after the fourth,
so "must contain exactly 4 integers" fails on the code. -/
theorem str2area_five_tokens_ok :
    CardConfig.str2area "1 2 3 4 5" = .ok ⟨1, 2, 3, 4⟩ := by decide

/-- C5 (amended): `str2area` yields `Area(10,20,30,40)` on
`"10 20 30 40"`; too few tokens or a non-integer token (anywhere, even
after the fourth) fail with the config error; but extra *integer*
tokens beyond the fourth are accepted and ignored. -/
theorem str2area_amended :
    CardConfig.str2area "10 20 30 40" = .ok ⟨10, 20, 30, 40⟩ ∧
    CardConfig.str2area "1 2 3" = .error (.configError "error parsing area: 1 2 3") ∧
    CardConfig.str2area "a b c d" = .error (.configError "error parsing area: a b c d") ∧
    CardConfig.str2area "10 20 30 40 50" = .ok ⟨10, 20, 30, 40⟩ ∧
    CardConfig.str2area "1 2 3 4 x" = .error (.configError "error parsing area: 1 2 3 4 x") :=
  ⟨by decide, by decide, by decide, by decide, by decide⟩

/-- C4: path expansion joins the `Card` file keys (`background`,
`image*`, …) with the config directory, but for a `Title*`/`Text*`
section it leaves `font` untouched and writes the joined path to the
misspelled key `fong` (ttcardgen.py line 208). -/
theorem expand_paths_writes_fong :
    CardConfig.expand_paths
      [("Card", [("background", "bg.png"), ("image1", "i.png")]),
       ("Text1", [("font", "fonts/f.ttf")])] "/d" =
    .ok [("Card", [("background", "/d/bg.png"), ("image1", "/d/i.png")]),
         ("Text1", [("font", "fonts/f.ttf"), ("fong", "/d/fonts/f.ttf")])] := by decide

/-- C3: when no column width fits, the inner loop decrements `columns`
to `0` and calls `textwrap.wrap(line, 0)`, which raises an uncaught
`ValueError` instead of reaching the font-size-reduction branch: with
a measuring function that never fits horizontally, `word_wrap` on the
single-line text `"aa"` (so columns 1 and then 0 are tried) dies with
the `ValueError`, not with a retry and not with a `CardError`. -/
theorem word_wrap_width0_valueError :
    Utils.word_wrap mWide 10 10 80 "aa" =
      .error (.valueError "invalid width 0 (must be > 0)") := by decide

/-- C2 (counterexample): with a measuring function whose height never
fits, a starting font size of 1.0 points (4 quarter points) reaches
`font_size ≤ 0` after two shrink iterations and the loop exits with 98
attempts left — `word_wrap` then returns the original (still
non-fitting) text without raising any error. -/
theorem word_wrap_silent_nonfit :
    Utils.word_wrap mShrink 5 5 4 "hi" = .ok ("hi", -2) ∧
    ((5 : Int) : ℚ) < (mShrink (-2) "hi").2 :=
  ⟨by decide, by decide⟩

/-- C6: the recursion guard fires exactly when the chain needs a 102nd
file: a chain of 101 template links fails with the "too many
templates" config error (leaving the store untouched), while a chain
of exactly 100 links loads successfully. -/
theorem load_template_depth_boundary :
    (CardConfig.load (fsChain 100) initCfg (chainPath 0) 0).2 = none ∧
    CardConfig.load (fsChain 101) initCfg (chainPath 0) 0 =
      (initCfg, some (.configError "too many templates")) :=
  ⟨by decide, by decide⟩

/-- C9: if `load` fails for any reason — guard, missing file, missing
`Card` section, or a failure anywhere in the template chain — the
store comes back exactly as it was: each level merges its sections
only after its own validation and the entire deeper chain have
succeeded. -/
theorem load_error_leaves_store (fs : FS) :
    ∀ (rem : Nat) (store : Cfg) (filename : String),
      (CardConfig.loadRem fs rem store filename).2.isSome = true →
      (CardConfig.loadRem fs rem store filename).1 = store := by
  intro rem
  induction rem with
  | zero => intro store f _; rfl
  | succ n ih =>
    intro store f h
    cases h1 : fs (realpath f) with
    | none => simp only [CardConfig.loadRem, h1]
    | some config =>
      cases h2 : hasSection config "Card" with
      | false => simp only [CardConfig.loadRem, h1, h2, Bool.false_eq_true, if_false]
      | true =>
        cases h3 : CardConfig.expand_paths config (pyDirname (realpath f)) with
        | error e => simp only [CardConfig.loadRem, h1, h2, if_true, h3]
        | ok config1 =>
          cases h4 : getKey config1 "Card" "template" with
          | none =>
            simp only [CardConfig.loadRem, h1, h2, if_true, h3, h4] at h
            simp at h
          | some tp =>
            cases h5 : CardConfig.loadRem fs n store tp with
            | mk store1 err =>
              cases err with
              | none =>
                simp only [CardConfig.loadRem, h1, h2, if_true, h3, h4, h5] at h
                simp at h
              | some e =>
                simp only [CardConfig.loadRem, h1, h2, if_true, h3, h4, h5]
                have hs := ih store tp
                rw [h5] at hs
                exact hs (by simp)

/-- C9 witness: a failing load (file not found) leaves the fresh store
untouched. -/
theorem load_error_leaves_store_witness :
    (CardConfig.loadRem (fun _ => none) 101 initCfg "/missing.cfg").1 = initCfg :=
  load_error_leaves_store (fun _ => none) 101 initCfg "/missing.cfg" (by decide)

/-- C10: a `title*`/`text*`/`pango*` value that is empty or whitespace
only makes `Card.text` and `Card.pango` return before touching the
canvas or reading the field's settings section: the result is `none`
(no render action) with no error, no matter what the rest of the
configuration contains — the settings section may be absent and
nothing of it is validated. -/
theorem text_pango_empty_noop :
    (∀ (metrics : Metrics) (colorOk : String → Bool) (store : Cfg) (key : String)
        (card : Sect) (raw : String),
        alookup store "Card" = some card → alookup card key = some raw →
        pyStrip raw = "" →
        Card.text metrics colorOk store key = .ok none) ∧
    (∀ (sec : Sect) (t : String), pyStrip t = "" → Card.pango sec t = .ok none) := by
  constructor
  · intro metrics colorOk store key card raw h1 h2 h3
    simp [Card.text, h1, h2, h3]
  · intro sec t h
    simp [Card.pango, h]

/-- C10 witness: a whitespace-only `title1` value with no `Title1`
section is a no-op for `Card.text`, and a whitespace-only pango text
with an empty settings section is a no-op for `Card.pango`. -/
theorem text_pango_empty_noop_witness :
    Card.text mZero (fun _ => true) [("Card", [("title1", "  ")])] "title1" = .ok none ∧
    Card.pango [] " \t" = .ok none :=
  ⟨text_pango_empty_noop.1 mZero (fun _ => true) [("Card", [("title1", "  ")])] "title1"
      [("title1", "  ")] "  " (by decide) (by decide) (by decide),
   text_pango_empty_noop.2 [] " \t" (by decide)⟩

/-- Helper for C2: if the `word_wrap` loop exits with a positive font
size and at least one attempt remaining, the exit was the success
break, so the final candidate measures within the box at the final
font size. -/
theorem wordWrapGo_pos_fits (metrics : Metrics) (imgW imgH : Int) (text : String)
    (lines : List String) (mc : Nat) :
    ∀ (attempts : Nat) (fs : Int) (mm s : String) (fsOut : Int) (rem : Nat),
      Utils.wordWrapGo metrics imgW imgH text lines mc attempts fs mm = .ok (s, fsOut, rem) →
      1 ≤ rem → 0 < fsOut →
      (metrics fsOut s).1 ≤ (imgW : ℚ) ∧ (metrics fsOut s).2 ≤ (imgH : ℚ) := by
  intro attempts
  induction attempts with
  | zero =>
    intro fs mm s fsOut rem h hrem _
    simp only [Utils.wordWrapGo, Except.ok.injEq, Prod.mk.injEq] at h
    omega
  | succ n ih =>
    intro fs mm s fsOut rem h hrem hpos
    simp only [Utils.wordWrapGo] at h
    by_cases h0 : 0 < fs
    · rw [if_pos h0] at h
      by_cases hh : (imgH : ℚ) < (metrics fs mm).2
      · rw [if_pos hh] at h
        exact ih _ _ _ _ _ h hrem hpos
      · rw [if_neg hh] at h
        by_cases hw : (imgW : ℚ) < (metrics fs mm).1
        · rw [if_pos hw] at h
          cases hcl : Utils.columnsLoop metrics imgW fs lines mc mm with
          | error e =>
            simp only [hcl] at h
            cases h
          | ok p =>
            obtain ⟨cols, mm1⟩ := p
            simp only [hcl] at h
            by_cases hc : cols < 1
            · rw [if_pos hc] at h
              exact ih _ _ _ _ _ h hrem hpos
            · rw [if_neg hc] at h
              exact ih _ _ _ _ _ h hrem hpos
        · rw [if_neg hw] at h
          simp only [Except.ok.injEq, Prod.mk.injEq] at h
          obtain ⟨rfl, rfl, rfl⟩ := h
          exact ⟨not_lt.mp hw, not_lt.mp hh⟩
    · rw [if_neg h0] at h
      simp only [Except.ok.injEq, Prod.mk.injEq] at h
      obtain ⟨rfl, rfl, rfl⟩ := h
      exact absurd hpos h0

/-- C2 (amended): `word_wrap` raises the `CardError` naming the
offending text only on the attempt-budget path (fewer than one attempt
left at loop exit); the font-size-≤-0 exit is *not* covered and
returns the current candidate silently.  What survives of the claim:
any successful return whose final font size is still positive does fit
the box at that size (the success break is the only other way out). -/
theorem word_wrap_pos_result_fits (metrics : Metrics) (imgW imgH fs0 : Int)
    (text s : String) (fsOut : Int)
    (h : Utils.word_wrap metrics imgW imgH fs0 text = .ok (s, fsOut))
    (hpos : 0 < fsOut) :
    (metrics fsOut s).1 ≤ (imgW : ℚ) ∧ (metrics fsOut s).2 ≤ (imgH : ℚ) := by
  unfold Utils.word_wrap at h
  cases hl : (pySplitlines text).map String.length with
  | nil =>
    simp only [hl] at h
    cases h
  | cons n ns =>
    simp only [hl] at h
    cases hgo : Utils.wordWrapGo metrics imgW imgH text (pySplitlines text)
        ((n :: ns).foldl max 0) 100 fs0 text with
    | error e =>
      simp only [hgo] at h
      cases h
    | ok trip =>
      obtain ⟨mm, fs, rem⟩ := trip
      simp only [hgo] at h
      by_cases hrem : rem < 1
      · rw [if_pos hrem] at h
        cases h
      · rw [if_neg hrem] at h
        simp only [Except.ok.injEq, Prod.mk.injEq] at h
        obtain ⟨rfl, rfl⟩ := h
        exact wordWrapGo_pos_fits metrics imgW imgH text (pySplitlines text)
          ((n :: ns).foldl max 0) 100 fs0 text _ _ _ hgo (by omega) hpos

/-- C2 amended witness: at a measuring function for which everything
fits, `word_wrap` returns the text at the unchanged positive font
size, and the theorem yields that the result measures within the
box. -/
theorem word_wrap_pos_result_fits_witness :
    (mZero 80 "hi").1 ≤ ((5 : Int) : ℚ) ∧ (mZero 80 "hi").2 ≤ ((5 : Int) : ℚ) :=
  word_wrap_pos_result_fits mZero 5 5 80 "hi" "hi" 80 (by decide) (by decide)

/-- C8: the canvas created by `Card.__init__` measures
`(W + 2·border) × (H + 2·border)` for a `W×H` background, and the
height doubles when a backside is configured.  The border defaults to
20, so the default canvas is 40 pixels larger than the background in
each dimension. -/
theorem card_init_canvas_size (env : ImgEnv) (colorOk : String → Bool) (store : Cfg)
    (cfg : Sect) (p : String) (W H : Nat) (b : Int)
    (hcard : alookup store "Card" = some cfg)
    (hbg : alookup cfg "background" = some p)
    (hp : p ≠ "")
    (henv : env p = some (W, H))
    (hcol : colorOk ((alookup cfg "border_colour").getD "black") = true)
    (hb : Card.borderVal cfg = some b) :
    ((alookup cfg "backside" = none ∨ alookup cfg "backside" = some "") →
      Card.init env colorOk store = .ok ((W : Int) + 2 * b, (H : Int) + 2 * b)) ∧
    (∀ (q : String) (W2 H2 : Nat), alookup cfg "backside" = some q → q ≠ "" →
      env q = some (W2, H2) →
      Card.init env colorOk store = .ok ((W : Int) + 2 * b, 2 * ((H : Int) + 2 * b))) := by
  constructor
  · intro hback
    rcases hback with hb1 | hb1 <;>
      simp [Card.init, hcard, hbg, hp, henv, hb1, hcol, hb]
  · intro q W2 H2 hq hqne henv2
    simp [Card.init, hcard, hbg, hp, henv, hq, hqne, henv2, hcol, hb]

/-- C8 witness: a minimal config with only a 100×60 background and
every default produces a 140×100 canvas — 40 pixels larger in each
dimension. -/
theorem card_init_canvas_size_witness :
    Card.init envC8 (fun _ => true) cfgC8 = .ok (140, 100) := by
  have h := (card_init_canvas_size envC8 (fun _ => true) cfgC8 [("background", "bg.png")]
      "bg.png" 100 60 20 (by decide) (by decide) (by decide) (by decide) (by decide)
      (by decide)).1 (Or.inl (by decide))
  exact h.trans (by decide)

/-- Writing with `setKV` changes exactly the binding of the written key. -/
theorem alookup_setKV (sec : Sect) (k v k1 : String) :
    alookup (setKV sec k v) k1 = if k = k1 then some v else alookup sec k1 := by
  induction sec with
  | nil => simp [setKV, alookup]
  | cons p rest ih =>
    obtain ⟨k0, v0⟩ := p
    by_cases h : k0 = k
    · subst h
      by_cases h1 : k0 = k1 <;> simp [setKV, alookup, h1]
    · by_cases h1 : k0 = k1
      · subst h1
        have h2 : k ≠ k0 := fun he => h he.symm
        simp [setKV, h, alookup, h2, ih]
      · simp [setKV, h, alookup, h1, ih]

/-- Lookup misses keys that are not present. -/
theorem alookup_none_of_not_mem {β : Type} (l : List (String × β)) (k : String)
    (h : k ∉ l.map Prod.fst) : alookup l k = none := by
  induction l with
  | nil => rfl
  | cons p rest ih =>
    simp only [List.map_cons, List.mem_cons] at h
    push_neg at h
    simp [alookup, Ne.symm h.1, ih h.2]

/-- Merging a section with distinct keys: the incoming value wins,
everything else falls back to the base section. -/
theorem alookup_mergeSection (kvs : Sect) :
    ∀ (base : Sect) (k : String), (kvs.map Prod.fst).Nodup →
      alookup (mergeSection base kvs) k = oor (alookup kvs k) (alookup base k) := by
  induction kvs with
  | nil => intro base k _; simp [mergeSection, alookup, oor]
  | cons p rest ih =>
    intro base k hnd
    obtain ⟨k0, v0⟩ := p
    simp only [List.map_cons, List.nodup_cons] at hnd
    have step : mergeSection base ((k0, v0) :: rest) = mergeSection (setKV base k0 v0) rest :=
      rfl
    rw [step, ih (setKV base k0 v0) k hnd.2]
    by_cases h : k0 = k
    · subst h
      have h1 : alookup rest k0 = none := alookup_none_of_not_mem rest k0 hnd.1
      simp [alookup, h1, alookup_setKV, oor]
    · simp [alookup, h, alookup_setKV, oor]

/-- Reading `upsertSec` at the written section: the section body becomes the
merge into the previous body (empty when the section is new). -/
theorem alookup_upsertSec_self (store : Cfg) (s : String) (kvs : Sect) :
    alookup (upsertSec store s kvs) s =
      some (mergeSection ((alookup store s).getD []) kvs) := by
  induction store with
  | nil => simp [upsertSec, alookup]
  | cons p rest ih =>
    obtain ⟨s1, sec1⟩ := p
    by_cases h : s1 = s
    · subst h; simp [upsertSec, alookup]
    · simp [upsertSec, h, alookup, ih]

/-- An `upsertSec` leaves every other section alone. -/
theorem alookup_upsertSec_other (store : Cfg) (s : String) (kvs : Sect) (s1 : String)
    (h : s ≠ s1) :
    alookup (upsertSec store s kvs) s1 = alookup store s1 := by
  induction store with
  | nil => simp [upsertSec, alookup, h]
  | cons p rest ih =>
    obtain ⟨s0, sec0⟩ := p
    by_cases h0 : s0 = s
    · subst h0; simp [upsertSec, alookup, h]
    · simp [upsertSec, h0, alookup, ih]

/-- The `read_dict` lookup: for a well-formed incoming config, a key
present in the incoming config wins, anything else falls back to the
store — sections or keys present in only one side are kept. -/
theorem getKey_read_dict (config : Cfg) :
    ∀ (store : Cfg) (s k : String), CfgWF config →
      getKey (read_dict store config) s k = oor (getKey config s k) (getKey store s k) := by
  induction config with
  | nil => intro store s k _; simp [read_dict, getKey, alookup, oor]
  | cons p rest ih =>
    intro store s k hwf
    obtain ⟨s0, kvs0⟩ := p
    obtain ⟨hnd, hsec⟩ := hwf
    simp only [List.map_cons, List.nodup_cons] at hnd
    have hrest : CfgWF rest := ⟨hnd.2, fun q hq => hsec q (List.mem_cons_of_mem _ hq)⟩
    have hkvs : (kvs0.map Prod.fst).Nodup := hsec (s0, kvs0) (List.mem_cons_self _ _)
    have step : read_dict store ((s0, kvs0) :: rest) =
        read_dict (upsertSec store s0 kvs0) rest := rfl
    rw [step, ih (upsertSec store s0 kvs0) s k hrest]
    by_cases h : s0 = s
    · subst h
      have h1 : alookup rest s0 = none := alookup_none_of_not_mem rest s0 hnd.1
      simp only [getKey, h1, Option.bind, alookup_upsertSec_self, alookup, if_pos rfl]
      rw [alookup_mergeSection kvs0 _ k hkvs]
      cases hst : alookup store s0 <;> simp [oor, alookup]
    · have h2 : alookup ((s0, kvs0) :: rest) s = alookup rest s := by
        simp [alookup, h]
      simp only [getKey, h2, alookup_upsertSec_other store s0 kvs0 s h]

/-- C1: when a loaded file declares `Card.template`, `load` loads the
template chain first (at `rem - 1`, i.e. depth+1) and then overlays
the file's expanded sections on top via `read_dict`; consequently for
every section and key, the leaf value wins when both sides define it,
and a key or section present on only one side is kept as-is. -/
theorem load_template_overlay (fs : FS) (store : Cfg) (rem : Nat) (p tp : String)
    (raw expcfg st1 : Cfg)
    (hfile : fs (realpath p) = some raw)
    (hcard : hasSection raw "Card" = true)
    (hexp : CardConfig.expand_paths raw (pyDirname (realpath p)) = .ok expcfg)
    (htp : getKey expcfg "Card" "template" = some tp)
    (hrec : CardConfig.loadRem fs rem store tp = (st1, none))
    (hwf : CfgWF expcfg) :
    CardConfig.loadRem fs (rem + 1) store p = (read_dict st1 expcfg, none) ∧
    ∀ (s k : String),
      getKey (read_dict st1 expcfg) s k = oor (getKey expcfg s k) (getKey st1 s k) := by
  constructor
  · simp only [CardConfig.loadRem, hfile, hcard, hexp, htp, hrec, if_true]
  · intro s k
    exact getKey_read_dict expcfg st1 s k hwf

/-- C1 witness: a base template with `font_size=10` in `[Text1]`
overridden by a leaf with `font_size=20` in `[Text1]` resolves to 20;
the load of the leaf is exactly the template result overlaid with the
expanded leaf sections. -/
theorem load_template_overlay_witness :
    CardConfig.loadRem fsC1 101 initCfg "/d/leaf.cfg" = (read_dict stBaseC1 expC1, none) ∧
    getKey (read_dict stBaseC1 expC1) "Text1" "font_size" = some "20" := by
  have h := load_template_overlay fsC1 initCfg 100 "/d/leaf.cfg" "/d/base.cfg" leafRawC1
    expC1 stBaseC1 (by decide) (by decide) (by decide) (by decide) (by decide) (by decide)
  refine ⟨h.1, ?_⟩
  have h2 := h.2 "Text1" "font_size"
  rw [h2]
  decide

/-- C7 (counterexample): the rewrapping is not "never splitting inside
a word": at column width 1 the single word `ab` of the original line
is broken (`break_long_words`), `word_wrap` accepts the wrapping
`a\nb`, and the word appears intact on no output line. -/
theorem word_wrap_splits_word :
    Utils.word_wrap mMaxCol 1 10 80 "ab" = .ok ("a\nb", 80) ∧
    pySplitlines "a\nb" = ["a", "b"] ∧
    infixBool "ab".data "a".data = false ∧
    infixBool "ab".data "b".data = false :=
  ⟨by decide, by decide, by decide, by decide⟩

/-- The two parts of a greedy take recombine to the input. -/
theorem greedyTake_append (width : Nat) :
    ∀ (n : Nat) (cs : List (List Char)),
      (greedyTake width n cs).1 ++ (greedyTake width n cs).2 = cs := by
  intro n cs
  induction cs generalizing n with
  | nil => rfl
  | cons c rest ih =>
    by_cases h : n + c.length ≤ width
    · simp [greedyTake, h, ih]
    · simp [greedyTake, h]

/-- A greedy take that takes nothing was refused by its head chunk. -/
theorem greedyTake_nil_head (width n : Nat) (c : List Char) (t cs : List (List Char))
    (h : greedyTake width n cs = ([], c :: t)) : width < n + c.length := by
  cases cs with
  | nil => simp [greedyTake] at h
  | cons c0 rest =>
    by_cases h0 : n + c0.length ≤ width
    · simp [greedyTake, h0] at h
    · simp only [greedyTake, h0, if_false, Prod.mk.injEq, List.cons.injEq] at h
      obtain ⟨-, rfl, -⟩ := h
      omega

/-- The wrap measure adds over concatenation. -/
theorem wrapMeasure_append (a b : List (List Char)) :
    wrapMeasure (a ++ b) = wrapMeasure a + wrapMeasure b := by
  simp [wrapMeasure, List.sum_append]
  omega

/-- The wrap measure of a cons. -/
theorem wrapMeasure_cons (c : List Char) (t : List (List Char)) :
    wrapMeasure (c :: t) = c.length + 1 + wrapMeasure t := by
  simp [wrapMeasure]
  omega

/-- The cut of `_handle_long_word` always consumes at least one character when
there is room on the line. -/
theorem hlwEnd_pos (chunk : List Char) (spaceLeft : Nat) (h : 1 ≤ spaceLeft) :
    1 ≤ hlwEnd chunk spaceLeft := by
  unfold hlwEnd
  split
  · split
    · split
      · omega
      · exact h
    · exact h
  · exact h

/-- A chunk with a non-space character survives the trailing
whitespace drop. -/
theorem mem_dropTrailingWs (w : List Char) (l : List (List Char))
    (hw : w.all (fun c => c == ' ') = false) (hm : w ∈ l) : w ∈ dropTrailingWs l := by
  unfold dropTrailingWs
  cases hl : l.getLast? with
  | none => exact hm
  | some r =>
    by_cases hr : r.all (fun c => c == ' ') = true
    · simp only [hr, if_true]
      have hne : l ≠ [] := by
        intro he
        subst he
        simp at hl
      have hr2 : l.getLast hne = r := by
        rw [List.getLast?_eq_getLast l hne] at hl
        exact Option.some.inj hl
      have hsplit : l.dropLast ++ [l.getLast hne] = l := List.dropLast_append_getLast hne
      rw [← hsplit] at hm
      rcases List.mem_append.mp hm with h1 | h1
      · exact h1
      · rw [List.mem_singleton.mp h1, hr2] at hw
        rw [hw] at hr
        cases hr
    · simp only [hr, if_false]
      exact hm

/-- A prefix is found by `isPrefixOf`. -/
theorem isPrefixOf_append_self (w t : List Char) : w.isPrefixOf (w ++ t) = true := by
  induction w with
  | nil => simp [List.isPrefixOf]
  | cons c cs ih => simp [List.isPrefixOf, ih]

/-- A prefix occurrence is an infix occurrence. -/
theorem infixBool_of_isPrefixOf (w l : List Char) (h : w.isPrefixOf l = true) :
    infixBool w l = true := by
  cases l with
  | nil =>
    cases w with
    | nil => rfl
    | cons c cs => simp [List.isPrefixOf] at h
  | cons c cs => simp [infixBool, h]

/-- An infix occurrence survives prepending. -/
theorem infixBool_append_left (w t : List Char) (h : infixBool w t = true) :
    ∀ pre : List Char, infixBool w (pre ++ t) = true := by
  intro pre
  induction pre with
  | nil => exact h
  | cons c cs ih => simp [infixBool, ih]

/-- Every chunk of a line occurs contiguously in the flattened line. -/
theorem infixBool_of_mem_flatten (r : List Char) (rs : List (List Char)) (h : r ∈ rs) :
    infixBool r rs.flatten = true := by
  induction rs with
  | nil => cases h
  | cons a as ih =>
    rcases List.mem_cons.mp h with rfl | h2
    · exact infixBool_of_isPrefixOf r (r ++ as.flatten) (isPrefixOf_append_self r _)
    · exact infixBool_append_left r as.flatten (ih h2) a

/-- A nonempty chunk list has positive wrap measure. -/
theorem wrapMeasure_pos_of_ne_nil (l : List (List Char)) (h : l ≠ []) :
    1 ≤ wrapMeasure l := by
  cases l with
  | nil => cases h rfl
  | cons a as => rw [wrapMeasure_cons]; omega

/-- Helper for C7, one loop iteration: a chunk that is not
whitespace-only and not longer than the column width is never the one
split by `_handle_long_word`; it either lands intact on the emitted
line or is handed whole to the continuation (which strictly decreases
the wrap measure). -/
theorem wrapStep_intact (width : Nat) (recur : Bool → List (List Char) → List (List Char))
    (w : List Char) (chunks1 : List (List Char)) (emitted : Bool)
    (hw : w.all (fun c => c == ' ') = false) (hlen : w.length ≤ width)
    (hrec : ∀ (em : Bool) (chunks2 : List (List Char)),
        wrapMeasure chunks2 < wrapMeasure chunks1 → w ∈ chunks2 →
        ∃ line ∈ recur em chunks2, infixBool w line = true)
    (hm : w ∈ chunks1) :
    ∃ line ∈ wrapStep width recur emitted chunks1, infixBool w line = true := by
  rcases hg : greedyTake width 0 chunks1 with ⟨cur, rest⟩
  have happ : cur ++ rest = chunks1 := by
    have h0 := greedyTake_append width 0 chunks1
    rw [hg] at h0
    exact h0
  have hmem : w ∈ cur ∨ w ∈ rest := by
    rw [← happ] at hm
    exact List.mem_append.mp hm
  have hmeas : wrapMeasure cur + wrapMeasure rest = wrapMeasure chunks1 := by
    rw [← happ, wrapMeasure_append]
  cases rest with
  | nil =>
    have hwcur : w ∈ cur := by
      rcases hmem with h | h
      · exact h
      · cases h
    have hcur3 : w ∈ dropTrailingWs cur := mem_dropTrailingWs w cur hw hwcur
    have hne : (dropTrailingWs cur).isEmpty = false := by
      cases hdt : dropTrailingWs cur with
      | nil => rw [hdt] at hcur3; cases hcur3
      | cons a as => rfl
    refine ⟨(dropTrailingWs cur).flatten, ?_, infixBool_of_mem_flatten w _ hcur3⟩
    simp [wrapStep, hg, hne]
  | cons rh rt =>
    have hrestm : wrapMeasure (rh :: rt) = rh.length + 1 + wrapMeasure rt :=
      wrapMeasure_cons rh rt
    by_cases hlong : width < rh.length
    · -- `_handle_long_word` splits `rh`; `w ≠ rh` because `w` fits the width
      rcases hmem with hwc | hwr
      · -- `w` lands on the emitted line
        have hm2 : w ∈ cur ++ [rh.take (hlwEnd rh
            (if width < 1 then 1 else width - (cur.map List.length).sum))] :=
          List.mem_append_left _ hwc
        have hcur3 := mem_dropTrailingWs w _ hw hm2
        have hne : (dropTrailingWs (cur ++ [rh.take (hlwEnd rh
            (if width < 1 then 1 else width - (cur.map List.length).sum))])).isEmpty
            = false := by
          cases hdt : dropTrailingWs (cur ++ [rh.take (hlwEnd rh
              (if width < 1 then 1 else width - (cur.map List.length).sum))]) with
          | nil => rw [hdt] at hcur3; cases hcur3
          | cons a as => rfl
        refine ⟨_, ?_, infixBool_of_mem_flatten w _ hcur3⟩
        simp only [wrapStep, hg, if_pos hlong, hne, Bool.false_eq_true, if_false]
        exact List.mem_cons_self _ _
      · rcases List.mem_cons.mp hwr with rfl | hwt
        · have : w.length ≤ width := hlen
          omega
        · -- `w` is among the untouched later chunks
          have he1 : 1 ≤ hlwEnd rh
              (if width < 1 then 1 else width - (cur.map List.length).sum) ∨ cur ≠ [] := by
            by_cases hcur : cur = []
            · left
              apply hlwEnd_pos
              subst hcur
              by_cases h1 : width < 1
              · simp [h1]
              · simp [h1]; omega
            · right; exact hcur
          have hlt : wrapMeasure (rh.drop (hlwEnd rh
              (if width < 1 then 1 else width - (cur.map List.length).sum)) :: rt) <
              wrapMeasure chunks1 := by
            rw [wrapMeasure_cons, List.length_drop]
            rcases he1 with he1 | he1
            · have h2 : 0 < rh.length := by omega
              rw [← hmeas, hrestm]
              have h3 : 0 ≤ wrapMeasure cur := Nat.zero_le _
              omega
            · have h2 : 1 ≤ wrapMeasure cur := wrapMeasure_pos_of_ne_nil cur he1
              rw [← hmeas, hrestm]
              have h4 : rh.length - (hlwEnd rh
                  (if width < 1 then 1 else width - (cur.map List.length).sum)) ≤
                  rh.length := Nat.sub_le _ _
              omega
          have hwm2 : w ∈ rh.drop (hlwEnd rh
              (if width < 1 then 1 else width - (cur.map List.length).sum)) :: rt :=
            List.mem_cons_of_mem _ hwt
          by_cases hne : (dropTrailingWs (cur ++ [rh.take (hlwEnd rh
              (if width < 1 then 1 else width - (cur.map List.length).sum))])).isEmpty
              = true
          · obtain ⟨line, hlm, hli⟩ := hrec emitted _ hlt hwm2
            refine ⟨line, ?_, hli⟩
            simp only [wrapStep, hg, if_pos hlong, hne, if_true]
            exact hlm
          · rw [Bool.not_eq_true] at hne
            obtain ⟨line, hlm, hli⟩ := hrec true _ hlt hwm2
            refine ⟨line, ?_, hli⟩
            simp only [wrapStep, hg, if_pos hlong, hne, Bool.false_eq_true, if_false]
            exact List.mem_cons_of_mem _ hlm
    · -- the head of the rest fits the width: nothing is split
      have hcurne : cur ≠ [] := by
        intro hcur
        subst hcur
        have := greedyTake_nil_head width 0 rh rt chunks1 hg
        omega
      have hcm : 1 ≤ wrapMeasure cur := wrapMeasure_pos_of_ne_nil cur hcurne
      rcases hmem with hwc | hwr
      · have hcur3 : w ∈ dropTrailingWs cur := mem_dropTrailingWs w cur hw hwc
        have hne : (dropTrailingWs cur).isEmpty = false := by
          cases hdt : dropTrailingWs cur with
          | nil => rw [hdt] at hcur3; cases hcur3
          | cons a as => rfl
        refine ⟨(dropTrailingWs cur).flatten, ?_, infixBool_of_mem_flatten w _ hcur3⟩
        simp only [wrapStep, hg, if_neg hlong, hne, Bool.false_eq_true, if_false]
        exact List.mem_cons_self _ _
      · have hlt : wrapMeasure (rh :: rt) < wrapMeasure chunks1 := by omega
        by_cases hne : (dropTrailingWs cur).isEmpty = true
        · obtain ⟨line, hlm, hli⟩ := hrec emitted _ hlt hwr
          refine ⟨line, ?_, hli⟩
          simp only [wrapStep, hg, if_neg hlong, hne, if_true]
          exact hlm
        · rw [Bool.not_eq_true] at hne
          obtain ⟨line, hlm, hli⟩ := hrec true _ hlt hwr
          refine ⟨line, ?_, hli⟩
          simp only [wrapStep, hg, if_neg hlong, hne, Bool.false_eq_true, if_false]
          exact List.mem_cons_of_mem _ hlm

/-- Helper for C7: through the whole `_wrap_chunks` loop, a chunk that
is not whitespace-only and not longer than the width occurs
contiguously on some output line. -/
theorem wrapChunksGo_intact (width : Nat) :
    ∀ (fuel : Nat) (chunks : List (List Char)) (emitted : Bool) (w : List Char),
      wrapMeasure chunks < fuel →
      w ∈ chunks →
      w.all (fun c => c == ' ') = false →
      w.length ≤ width →
      ∃ line ∈ wrapChunksGo width fuel emitted chunks, infixBool w line = true := by
  intro fuel
  induction fuel with
  | zero =>
    intro chunks emitted w hf _ _ _
    omega
  | succ fuel ih =>
    intro chunks emitted w hf hm hw hlen
    cases chunks with
    | nil => cases hm
    | cons c0 rest0 =>
      have hstep : wrapChunksGo width (fuel + 1) emitted (c0 :: rest0) =
          wrapStep width (wrapChunksGo width fuel) emitted
            (if emitted && c0.all (fun c => c == ' ') then rest0 else c0 :: rest0) := rfl
      rw [hstep]
      by_cases hdrop : (emitted && c0.all (fun c => c == ' ')) = true
      · rw [if_pos hdrop]
        have hm1 : w ∈ rest0 := by
          rcases List.mem_cons.mp hm with rfl | h
          · rw [Bool.and_eq_true] at hdrop
            rw [hdrop.2] at hw
            cases hw
          · exact h
        have hms : wrapMeasure rest0 ≤ wrapMeasure (c0 :: rest0) := by
          rw [wrapMeasure_cons]; omega
        refine wrapStep_intact width _ w rest0 emitted hw hlen ?_ hm1
        intro em chunks2 hlt hm2
        exact ih chunks2 em w (by omega) hm2 hw hlen
      · rw [Bool.not_eq_true] at hdrop
        rw [if_neg (by simp [hdrop])]
        refine wrapStep_intact width _ w (c0 :: rest0) emitted hw hlen ?_ hm
        intro em chunks2 hlt hm2
        exact ih chunks2 em w (by omega) hm2 hw hlen

/-- Python `expandtabs` does nothing to tab-free text, whatever the starting
column. -/
theorem expandtabsGo_no_tab (l : List Char) (h : ∀ c ∈ l, c ≠ '\t') :
    ∀ col, expandtabsGo 8 col l = l := by
  induction l with
  | nil => intro col; rfl
  | cons c cs ih =>
    intro col
    have hc : c ≠ '\t' := h c (List.mem_cons_self _ _)
    have hcs : ∀ x ∈ cs, x ≠ '\t' := fun x hx => h x (List.mem_cons_of_mem _ hx)
    by_cases hnr : c = '\n' ∨ c = '\r'
    · simp [expandtabsGo, hc, hnr, ih hcs]
    · simp [expandtabsGo, hc, hnr, ih hcs]

/-- Whitespace munging does nothing to text whose only whitespace is
the plain space. -/
theorem munge_plain (l : List Char) (hplain : ∀ c ∈ l, isPyWs c = true → c = ' ') :
    munge l = l := by
  have hnt : ∀ c ∈ l, c ≠ '\t' := by
    intro c hc he
    subst he
    exact absurd (hplain '\t' hc (by decide)) (by decide)
  unfold munge
  rw [expandtabsGo_no_tab l hnt 0]
  have hfix : ∀ c ∈ l,
      (if c = '\t' ∨ c = '\n' ∨ c = '\x0b' ∨ c = '\x0c' ∨ c = '\r' then ' ' else c) = c := by
    intro c hc
    by_cases hcond : c = '\t' ∨ c = '\n' ∨ c = '\x0b' ∨ c = '\x0c' ∨ c = '\r'
    · have hpw : isPyWs c = true := by
        rcases hcond with h | h | h | h | h <;> subst h <;> decide
      have hsp := hplain c hc hpw
      subst hsp
      exact absurd hcond (by decide)
    · rw [if_neg hcond]
  calc l.map _ = l.map id := List.map_congr_left hfix
  _ = l := List.map_id l

/-- The runs of a split recombine to the input. -/
theorem splitRunsBy_flatten (p : Char → Bool) :
    ∀ l : List Char, (splitRunsBy p l).flatten = l := by
  intro l
  induction l with
  | nil => rfl
  | cons c cs ih =>
    simp only [splitRunsBy]
    cases hsp : splitRunsBy p cs with
    | nil =>
      rw [hsp] at ih
      simp [← ih]
    | cons r rs =>
      cases r with
      | nil =>
        rw [hsp] at ih
        simp [← ih]
      | cons d ds =>
        rw [hsp] at ih
        by_cases hpd : p c = p d <;> simp [hpd, ← ih]

/-- Splitting into runs only depends on the classifier's values on the
text. -/
theorem splitRunsBy_congr (p q : Char → Bool) :
    ∀ l : List Char, (∀ c ∈ l, p c = q c) → splitRunsBy p l = splitRunsBy q l := by
  intro l
  induction l with
  | nil => intro _; rfl
  | cons c cs ih =>
    intro h
    have hc := h c (List.mem_cons_self _ _)
    have hcs : ∀ x ∈ cs, p x = q x := fun x hx => h x (List.mem_cons_of_mem _ hx)
    simp only [splitRunsBy, ih hcs]
    cases hsp : splitRunsBy q cs with
    | nil => rfl
    | cons r rs =>
      cases r with
      | nil => rfl
      | cons d ds =>
        have hd : d ∈ cs := by
          have hfl := splitRunsBy_flatten q cs
          rw [hsp] at hfl
          rw [← hfl]
          exact List.mem_flatten.mpr ⟨d :: ds, List.mem_cons_self _ _, List.mem_cons_self _ _⟩
        exact if_congr (by rw [hc, hcs d hd]) rfl rfl

/-- C7 (amended): the rewrapping breaks at whitespace, but a word
longer than the column width is split by textwrap's default
`break_long_words` (see the counterexample); what holds is that every
whitespace-delimited word *no longer than the column width* appears
intact (contiguously) on some line of the wrapped output — stated for
text without hyphens or exotic whitespace, the fragment on which the
`textwrap` embedding is faithful. -/
theorem wrap_word_intact (s : String) (width : Nat) (ls : List String) (word : String)
    (hok : wrap s width = .ok ls)
    (hmem : word ∈ pySplit s)
    (hlen : word.length ≤ width)
    (hplain : ∀ c ∈ s.data, isPyWs c = true → c = ' ')
    (hnh : ∀ c ∈ s.data, c ≠ '-') :
    ∃ l ∈ ls, infixBool word.data l.data = true := by
  unfold wrap at hok
  by_cases h0 : width = 0
  · rw [if_pos h0] at hok; cases hok
  · rw [if_neg h0] at hok
    simp only [Except.ok.injEq] at hok
    have hpq : ∀ c ∈ s.data, (fun c => c == ' ') c = isPyWs c := by
      intro c hc
      by_cases hsp : c = ' '
      · subst hsp; decide
      · have h1 : (c == ' ') = false := beq_eq_false_iff_ne.mpr hsp
        have h2 : isPyWs c = false := by
          cases hw2 : isPyWs c with
          | false => rfl
          | true => exact absurd (hplain c hc hw2) hsp
        simp [h1, h2]
    have hchunks : splitRunsBy (fun c => c == ' ') (munge s.data) =
        splitRunsBy isPyWs s.data := by
      rw [munge_plain s.data hplain]
      exact splitRunsBy_congr _ _ s.data hpq
    obtain ⟨r, hrf, hrm⟩ := List.mem_map.mp hmem
    obtain ⟨hrin, hpred⟩ := List.mem_filter.mp hrf
    have hrw : word.data = r := by rw [← hrm]
    cases r with
    | nil => simp at hpred
    | cons c tail =>
      have hcw : isPyWs c = false := by
        simpa using hpred
      have hcne : c ≠ ' ' := by
        intro he
        subst he
        simp [isPyWs] at hcw
      have hall : (c :: tail).all (fun x => x == ' ') = false := by
        simp [List.all_cons, beq_eq_false_iff_ne.mpr hcne]
      have hlen2 : (c :: tail).length ≤ width := by
        have : word.length = (c :: tail).length := by
          rw [← hrw]; rfl
        omega
      have hin2 : (c :: tail) ∈ splitRunsBy (fun c => c == ' ') (munge s.data) := by
        rw [hchunks]; exact hrin
      obtain ⟨line, hlm, hli⟩ :=
        wrapChunksGo_intact width
          (wrapMeasure (splitRunsBy (fun c => c == ' ') (munge s.data)) + 1)
          (splitRunsBy (fun c => c == ' ') (munge s.data)) false (c :: tail)
          (by omega) hin2 hall hlen2
      refine ⟨String.mk line, ?_, ?_⟩
      · rw [← hok]
        exact List.mem_map_of_mem String.mk hlm
      · rw [hrw]
        exact hli

/-- C7 amended witness: wrapping `ab cd` at width 2 yields the lines
`ab` and `cd`, and the theorem produces the intact occurrence of the
word `ab` on one of them. -/
theorem wrap_word_intact_witness :
    ∃ l ∈ ["ab", "cd"], infixBool "ab".data l.data = true :=
  wrap_word_intact "ab cd" 2 ["ab", "cd"] "ab" (by decide) (by decide) (by decide)
    (by decide) (by decide)
